import Mathlib

/-!
# Efficiency Tracker — verification of the data reconciliation and aggregation layer

This file embeds the core of the `efficiency-tracker` repository in Lean:
the schema normalizer (`DataManager.load_excel_data` in
`components/data_manager.py` and `S3DataManager.load_excel_data` in
`components/s3_data_manager.py`), the partition-key derivation and access
check (`components/utils.py`), the entry-form field logic
(`components/engineer_interface.py`), and the dashboard metrics
(`EngineerInterface._render_dashboard`,
`AdminDashboardPage._render_key_metrics` / `_aggregate_team_data`).

A pandas DataFrame is modelled column-orientedly as an ordered association
list of column name to cell list, together with a row count (used when a
missing column is synthesized by broadcasting the empty string).  Float
arithmetic of the metric pipeline is modelled over `ℚ` extended with the
IEEE special values `nan` / `±inf` (`PVal`); on the inputs the theorems
below evaluate, the floating-point computation of the source is exact, and
the nan/inf classification is independent of rounding.
-/

/-- A spreadsheet cell as observed after `pd.read_excel`:
a string, a date (counted in days, so that `+ pd.Timedelta(days=6)` is `+ 6`),
a number, or a missing value (pandas `NaN`). -/
inductive Cell where
  | str (s : String)
  | date (d : ℤ)
  | num (q : ℚ)
  | nan
deriving DecidableEq

/-- A pandas DataFrame: ordered columns, each a name with its cell list.
`nrows` is the length of the frame's index (`len(df)`). -/
structure DFrame where
  nrows : Nat
  cols : List (String × List Cell)
deriving DecidableEq

/-- `DB_COLUMNS` from `components/config.py`: the fixed canonical column set,
in canonical order. -/
def DB_COLUMNS : List String :=
  ["Week_Start", "Week_End", "Story_ID", "Developer_Name", "Team_Name",
   "Original_Estimate_Hours", "Efficiency_Gained_Hours", "Copilot_Used",
   "Category", "Areas_of_Efficiency", "Notes_Observations"]

/-- First-match lookup of a column by name in an ordered column list. -/
def findCol : List (String × List Cell) → String → Option (List Cell)
  | [], _ => none
  | p :: l, name => if p.1 == name then some p.2 else findCol l name

/-- `df[name]`: the first column carrying `name` (column names are unique in
a frame produced by `pd.read_excel`). -/
def getCol? (df : DFrame) (name : String) : Option (List Cell) :=
  findCol df.cols name

/-- `df[name]` with a default for the impossible missing case. -/
def getColD (df : DFrame) (name : String) : List Cell :=
  (getCol? df name).getD []

/-- `name in df.columns`. -/
def hasCol (df : DFrame) (name : String) : Bool :=
  (getCol? df name).isSome

/-- `df[name] = vals`: pandas column assignment replaces an existing column
in place and appends a new column at the end. -/
def setCol (df : DFrame) (name : String) (vals : List Cell) : DFrame :=
  if hasCol df name then
    ⟨df.nrows, df.cols.map (fun p => if p.1 == name then (name, vals) else p)⟩
  else
    ⟨df.nrows, df.cols ++ [(name, vals)]⟩

/-- `df.drop(name, axis=1)`. -/
def dropCol (df : DFrame) (name : String) : DFrame :=
  ⟨df.nrows, df.cols.filter (fun p => p.1 != name)⟩

/-- `df[names]`: projection onto `names` in the given order.  At its use
site every requested column is present, so the `getColD` default is never
exercised (pandas would raise a `KeyError` there). -/
def selectCols (df : DFrame) (names : List String) : DFrame :=
  ⟨df.nrows, names.map (fun n => (n, getColD df n))⟩

/-- `for col in DB_COLUMNS: if col not in df.columns: df[col] = ''` —
each absent canonical column is synthesized by broadcasting the empty
string over the frame's rows. -/
def fillMissing (df : DFrame) (names : List String) : DFrame :=
  names.foldl
    (fun d c => if hasCol d c then d else setCol d c (List.replicate d.nrows (Cell.str "")))
    df

/-- `pd.to_datetime(x).dt.date` is modelled only for date-typed cells; any
other cell kind is conservatively treated as a parse failure, which the
source catches as an exception (mapping the whole load to an empty frame). -/
def toDate? : Cell → Option ℤ
  | .date d => some d
  | _ => none

/-- Parse a whole `Week` column as dates; any unparseable cell fails the
whole column (the exception `pd.to_datetime` would raise). -/
def allDates? : List Cell → Option (List ℤ)
  | [] => some []
  | c :: cs =>
    match toDate? c, allDates? cs with
    | some d, some ds => some (d :: ds)
    | _, _ => none

/-- `DataManager.create_empty_dataframe` (`data_manager.py`):
`pd.DataFrame(columns=DB_COLUMNS)`. -/
def create_empty_dataframe : DFrame :=
  ⟨0, DB_COLUMNS.map (fun n => (n, []))⟩

/-- The legacy-migration step of `DataManager.load_excel_data`
(`data_manager.py` lines 29–33): when a `Week` column is present without
`Week_Start`, set `Week_Start = pd.to_datetime(df['Week']).dt.date`,
`Week_End = Week_Start + pd.Timedelta(days=6)`, and drop `Week`.
`none` is the exception path (a `Week` value that fails to parse). -/
def dmLegacy (df : DFrame) : Option DFrame :=
  if hasCol df "Week" && !hasCol df "Week_Start" then
    match allDates? (getColD df "Week") with
    | none => none
    | some ds =>
      some (dropCol
        (setCol (setCol df "Week_Start" (ds.map Cell.date)) "Week_End"
          (ds.map (fun d => Cell.date (d + 6))))
        "Week")
  else
    some df

/-- The state of the backing file/object a load observes. -/
inductive FileState where
  | missing
  | corrupt
  | content (df : DFrame)

/-- `DataManager.load_excel_data` (`data_manager.py` lines 20–44): a missing
file yields an empty frame; a file `pd.read_excel` cannot parse (or a legacy
`Week` value that fails to parse) is caught by the `except` and yields an
empty frame; otherwise legacy-migrate, synthesize missing canonical columns
with `''`, and project onto `DB_COLUMNS` in canonical order. -/
def DataManager_load_excel_data : FileState → DFrame
  | .missing => create_empty_dataframe
  | .corrupt => create_empty_dataframe
  | .content df =>
    match dmLegacy df with
    | none => create_empty_dataframe
    | some df1 => selectCols (fillMissing df1 DB_COLUMNS) DB_COLUMNS

/-- The legacy-migration step of `S3DataManager.load_excel_data`
(`s3_data_manager.py` lines 90–92): when a `Week` column is present without
`Week_Start`, copy it verbatim into both `Week_Start` and `Week_End`
("For old data, use same date"); `Week` is not dropped. -/
def s3Legacy (df : DFrame) : DFrame :=
  if hasCol df "Week" && !hasCol df "Week_Start" then
    setCol (setCol df "Week_Start" (getColD df "Week")) "Week_End" (getColD df "Week")
  else
    df

/-- `S3DataManager.load_excel_data` (`s3_data_manager.py` lines 77–108):
a missing object or any `ClientError`/parse failure yields the empty frame;
otherwise apply the S3 legacy step and synthesize missing canonical columns
with `''`.  Unlike the local manager it performs no projection: extra
columns survive and the input column order is kept.
(`S3DataManager.create_empty_dataframe` hard-codes the same eleven names as
`DB_COLUMNS`.) -/
def S3DataManager_load_excel_data : FileState → DFrame
  | .missing => create_empty_dataframe
  | .corrupt => create_empty_dataframe
  | .content df => fillMissing (s3Legacy df) DB_COLUMNS

/-- `verify_engineer_access` (`utils.py` lines 37–41): the body is
`return True`; the token parameter is ignored. -/
def verify_engineer_access (developer_name team_name : String)
    (provided_token : Option String) : Bool :=
  let _ := developer_name
  let _ := team_name
  let _ := provided_token
  true

/-- `get_team_excel_file` (`utils.py` lines 44–46):
`f"efficiency_data_{team_name.replace(' ', '_')}.xlsx"` — a single-character
`str.replace` is a character-wise map. -/
def get_team_excel_file (team_name : String) : String :=
  "efficiency_data_" ++
    String.mk (team_name.data.map (fun c => if c = ' ' then '_' else c)) ++ ".xlsx"

/-- The entry-form rule of `EngineerInterface._render_data_entry`
(`engineer_interface.py` lines 166–178): the time-saved input is only used
when `copilot_used == "Yes"`; otherwise the saved value is `0.0`. -/
def form_efficiency_gained (copilot_used : String) (time_saved_input : ℚ) : ℚ :=
  if copilot_used == "Yes" then time_saved_input else 0

/-- A pandas/numpy float as it occurs in the metric pipeline: a finite value
(exact, as a rational), `NaN`, or `±inf`. -/
inductive PVal where
  | num (q : ℚ)
  | nan
  | posInf
  | negInf
deriving DecidableEq

/-- Element-wise float division of two (finite) series values, with the
IEEE zero-denominator cases: `0/0 = NaN`, `x/0 = ±inf` by the sign of `x`. -/
def pdiv (a b : ℚ) : PVal :=
  if b = 0 then
    if a = 0 then .nan else if 0 < a then .posInf else .negInf
  else .num (a / b)

/-- Multiplication by the positive literal `100` (`* 100` in the source). -/
def pmul100 : PVal → PVal
  | .num q => .num (q * 100)
  | .nan => .nan
  | .posInf => .posInf
  | .negInf => .negInf

/-- IEEE float addition on `PVal` (used when a mean sums a series). -/
def padd : PVal → PVal → PVal
  | .nan, _ => .nan
  | .num _, .nan => .nan
  | .posInf, .nan => .nan
  | .negInf, .nan => .nan
  | .num a, .num b => .num (a + b)
  | .num _, .posInf => .posInf
  | .num _, .negInf => .negInf
  | .posInf, .num _ => .posInf
  | .negInf, .num _ => .negInf
  | .posInf, .posInf => .posInf
  | .negInf, .negInf => .negInf
  | .posInf, .negInf => .nan
  | .negInf, .posInf => .nan

/-- Sum of a series of floats. -/
def psum (vs : List PVal) : PVal :=
  vs.foldr padd (.num 0)

/-- Division of a float by a (positive) count. -/
def pdivNat (v : PVal) (n : Nat) : PVal :=
  match v with
  | .num q => .num (q / n)
  | .nan => .nan
  | .posInf => .posInf
  | .negInf => .negInf

/-- `Series.mean()` with pandas' default `skipna=True`: `NaN` entries are
dropped; the mean of an empty (or all-`NaN`) series is `NaN`; infinities are
kept and propagate. -/
def pmean (vs : List PVal) : PVal :=
  if (vs.filter (fun v => v != PVal.nan)).isEmpty then .nan
  else pdivNat (psum (vs.filter (fun v => v != PVal.nan)))
    (vs.filter (fun v => v != PVal.nan)).length

/-- A canonical row as the dashboards consume it, restricted to the fields
the metrics read (hour fields numeric, as entered through the form). -/
structure Entry where
  developer_name : String
  team_name : String
  original_estimate_hours : ℚ
  efficiency_gained_hours : ℚ
deriving DecidableEq

/-- One row's contribution to the "Average Efficiency" metric:
`Efficiency_Gained_Hours / Original_Estimate_Hours * 100`. -/
def rowEfficiency (e : Entry) : PVal :=
  pmul100 (pdiv e.efficiency_gained_hours e.original_estimate_hours)

/-- `EngineerInterface._render_dashboard` (`engineer_interface.py` lines
296–298) computed on `engineer_df = df[df['Developer_Name'] == dev]`
(line 31): `(gained / estimate * 100).mean()` over the developer's rows. -/
def engineer_average_efficiency (dev : String) (rows : List Entry) : PVal :=
  pmean ((rows.filter (fun r => r.developer_name == dev)).map rowEfficiency)

/-- `AdminDashboardPage._render_key_metrics` (`admin_interface.py` lines
472–474): `(gained / estimate * 100).mean()` over `combined_df`. -/
def admin_average_efficiency (rows : List Entry) : PVal :=
  pmean (rows.map rowEfficiency)

/-- The "Copilot Usage Rate" metric (`admin_interface.py` lines 477–478 and
456): `(df['Copilot_Used'] == 'Yes').mean() * 100` — the boolean mean is the
count of `Yes` cells over the total row count; the mean of an empty series
is `NaN`. -/
def copilot_usage_rate (cells : List Cell) : PVal :=
  if cells.isEmpty then .nan
  else .num (((cells.countP (fun c => c == Cell.str "Yes") : ℚ) / cells.length) * 100)

/-- Modelled from the spec (§4.3): the `assistant_used`-rate as the spec
states it — rows with a missing or blank `assistant_used` value are excluded
from both numerator and denominator. -/
def spec_assistant_used_rate (cells : List Cell) : PVal :=
  let valid := cells.filter (fun c => c != Cell.str "" && c != Cell.nan)
  if valid.isEmpty then .nan
  else .num (((valid.countP (fun c => c == Cell.str "Yes") : ℚ) / valid.length) * 100)

/-- The row-wise invariant of spec §8: a row whose `Copilot_Used` cell is
`"No"` has `Efficiency_Gained_Hours` equal to `0`. -/
def noImpliesZero (df : DFrame) : Bool :=
  (List.zip (getColD df "Copilot_Used") (getColD df "Efficiency_Gained_Hours")).all
    (fun p => p.1 != Cell.str "No" || p.2 == Cell.num 0)

/-! ## Basic lemmas about the frame operations -/

theorem setCol_nrows (df : DFrame) (n : String) (v : List Cell) :
    (setCol df n v).nrows = df.nrows := by
  unfold setCol; split <;> rfl

theorem fillMissing_cons (df : DFrame) (n : String) (rest : List String) :
    fillMissing df (n :: rest)
      = fillMissing
          (if hasCol df n then df
           else setCol df n (List.replicate df.nrows (Cell.str ""))) rest := rfl

theorem findCol_set_self (l : List (String × List Cell)) (n : String) (v : List Cell) :
    findCol (l.map (fun p => if p.1 == n then (n, v) else p)) n
      = (findCol l n).map (fun _ => v) := by
  induction l with
  | nil => rfl
  | cons p l ih =>
    by_cases hb : (p.1 == n) = true
    · rw [List.map_cons, if_pos hb]
      simp only [findCol]
      rw [if_pos (show ((n, v).1 == n) = true by simp), if_pos hb]
      rfl
    · rw [List.map_cons, if_neg hb]
      simp only [findCol]
      rw [if_neg hb, if_neg hb]
      exact ih

theorem findCol_set_ne (l : List (String × List Cell)) (n m : String) (v : List Cell)
    (h : m ≠ n) :
    findCol (l.map (fun p => if p.1 == n then (n, v) else p)) m = findCol l m := by
  induction l with
  | nil => rfl
  | cons p l ih =>
    by_cases hb : (p.1 == n) = true
    · have hpn : p.1 = n := by simpa using hb
      have h1 : ¬ (((n, v).1 == m) = true) := by simp [Ne.symm h]
      have h2 : ¬ ((p.1 == m) = true) := by simp [hpn, Ne.symm h]
      rw [List.map_cons, if_pos hb]
      simp only [findCol]
      rw [if_neg h1, if_neg h2]
      exact ih
    · rw [List.map_cons, if_neg hb]
      simp only [findCol]
      by_cases hq : (p.1 == m) = true
      · rw [if_pos hq, if_pos hq]
      · rw [if_neg hq, if_neg hq]
        exact ih

theorem findCol_append_right (l : List (String × List Cell)) (n : String) (v : List Cell)
    (h : findCol l n = none) :
    findCol (l ++ [(n, v)]) n = some v := by
  induction l with
  | nil => simp [findCol]
  | cons p l ih =>
    simp only [findCol] at h
    simp only [List.cons_append, findCol]
    by_cases hb : (p.1 == n) = true
    · rw [if_pos hb] at h
      cases h
    · rw [if_neg hb] at h
      rw [if_neg hb]
      exact ih h

theorem findCol_append_ne (l : List (String × List Cell)) (n m : String) (v : List Cell)
    (h : m ≠ n) :
    findCol (l ++ [(n, v)]) m = findCol l m := by
  induction l with
  | nil =>
    simp only [List.nil_append, findCol]
    rw [if_neg (show ¬ (((n, v).1 == m) = true) by simp [Ne.symm h])]
  | cons p l ih =>
    simp only [List.cons_append, findCol]
    by_cases hq : (p.1 == m) = true
    · rw [if_pos hq, if_pos hq]
    · rw [if_neg hq, if_neg hq]
      exact ih

theorem findCol_none_of_not_hasCol (df : DFrame) (n : String) (h : ¬ hasCol df n = true) :
    findCol df.cols n = none :=
  Option.not_isSome_iff_eq_none.mp (by simpa [hasCol, getCol?] using h)

theorem getCol?_setCol_self (df : DFrame) (n : String) (v : List Cell) :
    getCol? (setCol df n v) n = some v := by
  unfold setCol
  by_cases h : hasCol df n = true
  · rw [if_pos h]
    show findCol (df.cols.map (fun p => if p.1 == n then (n, v) else p)) n = some v
    rw [findCol_set_self]
    have hs : (findCol df.cols n).isSome = true := h
    obtain ⟨w, hw⟩ := Option.isSome_iff_exists.mp hs
    rw [hw]
    rfl
  · rw [if_neg h]
    show findCol (df.cols ++ [(n, v)]) n = some v
    exact findCol_append_right df.cols n v (findCol_none_of_not_hasCol df n h)

theorem getCol?_setCol_ne (df : DFrame) (n m : String) (v : List Cell) (h : m ≠ n) :
    getCol? (setCol df n v) m = getCol? df m := by
  unfold setCol
  by_cases hc : hasCol df n = true
  · rw [if_pos hc]
    exact findCol_set_ne df.cols n m v h
  · rw [if_neg hc]
    exact findCol_append_ne df.cols n m v h

theorem getCol?_dropCol_ne (df : DFrame) (n m : String) (h : m ≠ n) :
    getCol? (dropCol df n) m = getCol? df m := by
  show findCol (df.cols.filter (fun p => p.1 != n)) m = findCol df.cols m
  induction df.cols with
  | nil => rfl
  | cons p l ih =>
    by_cases hp : p.1 = n
    · have hf : ¬ ((p.1 != n) = true) := by simp [hp]
      have hm : ¬ ((p.1 == m) = true) := by simp [hp, Ne.symm h]
      rw [@List.filter_cons_of_neg _ (fun q => q.1 != n) p l hf]
      conv_rhs => simp only [findCol]
      rw [if_neg hm]
      exact ih
    · have hf : (p.1 != n) = true := by simp [hp]
      rw [@List.filter_cons_of_pos _ (fun q => q.1 != n) p l hf]
      simp only [findCol]
      by_cases hq : (p.1 == m) = true
      · rw [if_pos hq, if_pos hq]
      · rw [if_neg hq, if_neg hq]
        exact ih

theorem hasCol_setCol_ne (df : DFrame) (n m : String) (v : List Cell) (h : m ≠ n) :
    hasCol (setCol df n v) m = hasCol df m := by
  unfold hasCol
  rw [getCol?_setCol_ne df n m v h]

theorem hasCol_setCol_self (df : DFrame) (n : String) (v : List Cell) :
    hasCol (setCol df n v) n = true := by
  unfold hasCol
  rw [getCol?_setCol_self]
  rfl

theorem getCol?_fillMissing_present (names : List String) (df : DFrame) (c : String)
    (h : hasCol df c = true) :
    getCol? (fillMissing df names) c = getCol? df c := by
  induction names generalizing df with
  | nil => rfl
  | cons n rest ih =>
    rw [fillMissing_cons]
    by_cases hn : hasCol df n = true
    · rw [if_pos hn]
      exact ih df h
    · rw [if_neg hn]
      have hne : c ≠ n := fun e => hn (e ▸ h)
      have h2 : hasCol (setCol df n (List.replicate df.nrows (Cell.str ""))) c = true := by
        rw [hasCol_setCol_ne df n c _ hne]
        exact h
      rw [ih _ h2]
      exact getCol?_setCol_ne df n c _ hne

theorem fillMissing_nrows (names : List String) (df : DFrame) :
    (fillMissing df names).nrows = df.nrows := by
  induction names generalizing df with
  | nil => rfl
  | cons n rest ih =>
    rw [fillMissing_cons]
    by_cases hn : hasCol df n = true
    · rw [if_pos hn]
      exact ih df
    · rw [if_neg hn, ih, setCol_nrows]

theorem getCol?_fillMissing_absent (names : List String) (df : DFrame) (c : String)
    (h : hasCol df c = false) (hm : c ∈ names) :
    getCol? (fillMissing df names) c = some (List.replicate df.nrows (Cell.str "")) := by
  induction names generalizing df with
  | nil => cases hm
  | cons n rest ih =>
    rw [fillMissing_cons]
    by_cases hcn : c = n
    · subst hcn
      rw [if_neg (by simp [h])]
      rw [getCol?_fillMissing_present rest _ c (hasCol_setCol_self df c _)]
      exact getCol?_setCol_self df c _
    · have hm2 : c ∈ rest := by
        cases hm with
        | head => exact absurd rfl hcn
        | tail _ hx => exact hx
      by_cases hn : hasCol df n = true
      · rw [if_pos hn]
        exact ih df h hm2
      · rw [if_neg hn]
        have h2 : hasCol (setCol df n (List.replicate df.nrows (Cell.str ""))) c = false := by
          rw [hasCol_setCol_ne df n c _ hcn]
          exact h
        rw [ih _ h2 hm2, setCol_nrows]

theorem hasCol_fillMissing_of_mem (names : List String) (df : DFrame) (c : String)
    (hm : c ∈ names) :
    hasCol (fillMissing df names) c = true := by
  by_cases h : hasCol df c = true
  · unfold hasCol
    rw [getCol?_fillMissing_present names df c h]
    exact h
  · unfold hasCol
    rw [getCol?_fillMissing_absent names df c (by simpa using h) hm]
    rfl

theorem getCol?_selectCols_mem (df : DFrame) (names : List String) (c : String) :
    c ∈ names → getCol? (selectCols df names) c = some (getColD df c) := by
  show c ∈ names → findCol (names.map (fun n => (n, getColD df n))) c = some (getColD df c)
  induction names with
  | nil => intro hm; cases hm
  | cons n rest ih =>
    intro hm
    rw [List.map_cons]
    simp only [findCol]
    by_cases hcn : n = c
    · subst hcn
      rw [if_pos (show ((n, getColD df n).1 == n) = true by simp)]
    · have hm2 : c ∈ rest := by
        cases hm with
        | head => exact absurd rfl (fun e => hcn e.symm)
        | tail _ hx => exact hx
      rw [if_neg (show ¬ (((n, getColD df n).1 == c) = true) by simp [hcn])]
      exact ih hm2

theorem allDates?_map_date (ds : List ℤ) :
    allDates? (ds.map Cell.date) = some ds := by
  induction ds with
  | nil => rfl
  | cons d ds ih =>
    rw [List.map_cons]
    unfold allDates?
    rw [ih]
    rfl

/-! ## String helper lemmas for the partition-key derivation -/

theorem string_data_append (a b : String) : (a ++ b).data = a.data ++ b.data := by
  cases a
  cases b
  rfl

theorem string_mk_data (l : List Char) : (String.mk l).data = l := rfl

theorem replaceSpace_inj (l m : List Char) :
    '_' ∉ l → '_' ∉ m →
    l.map (fun c => if c = ' ' then '_' else c)
      = m.map (fun c => if c = ' ' then '_' else c) → l = m := by
  induction l generalizing m with
  | nil =>
    intro _ _ h
    cases m with
    | nil => rfl
    | cons b m => simp at h
  | cons a l ih =>
    intro hl hm h
    cases m with
    | nil => simp at h
    | cons b m =>
      simp only [List.map_cons, List.cons.injEq] at h
      obtain ⟨h1, h2⟩ := h
      simp only [List.mem_cons, not_or] at hl hm
      have ha : a ≠ '_' := fun e => hl.1 e.symm
      have hb : b ≠ '_' := fun e => hm.1 e.symm
      have hab : a = b := by
        by_cases haa : a = ' ' <;> by_cases hbb : b = ' '
        · rw [haa, hbb]
        · rw [if_pos haa, if_neg hbb] at h1
          exact absurd h1.symm hb
        · rw [if_neg haa, if_pos hbb] at h1
          exact absurd h1 ha
        · rwa [if_neg haa, if_neg hbb] at h1
      rw [hab, ih m hl.2 hm.2 h2]

theorem pval_num_bne_nan (q : ℚ) : (PVal.num q != PVal.nan) = true := rfl

/-! ## Claim theorems -/

/-- C10. `verify_engineer_access` returns `True` for every input, so its
result is independent of the provided token: the token grants no
authorization. -/
theorem claim_C10 :
    (∀ (d t : String) (tok : Option String), verify_engineer_access d t tok = true) ∧
    (∀ (d t : String) (tok1 tok2 : Option String),
      verify_engineer_access d t tok1 = verify_engineer_access d t tok2) :=
  ⟨fun _ _ _ => rfl, fun _ _ _ _ => rfl⟩

/-- C7. `DataManager.load_excel_data` recovers to the empty canonical frame
both on a missing file and on a corrupt (unparseable) file; the empty frame
has zero rows and every column empty.  Totality (never `null`, never a
crash) holds by construction: the embedded function is total and the
source's `try/except` covers the whole parse-and-normalize body. -/
theorem claim_C7 :
    DataManager_load_excel_data FileState.missing = create_empty_dataframe ∧
    DataManager_load_excel_data FileState.corrupt = create_empty_dataframe ∧
    create_empty_dataframe.nrows = 0 ∧
    create_empty_dataframe.cols.all (fun p => p.2.isEmpty) = true :=
  ⟨rfl, rfl, rfl, by decide⟩

/-- C1. On Grace Lee's two entries (estimate 10 / gained 3, estimate 5 /
gained 0) the "Average Efficiency" metric is the per-row mean of
`gained/estimate*100`, exactly `15.0` (not `30.0`); and the engineer-view
and admin-view computations of the metric are the same function: the
engineer view is the admin formula applied to the developer-filtered rows. -/
theorem claim_C1 :
    engineer_average_efficiency "Grace Lee"
        [⟨"Grace Lee", "Platform Team", 10, 3⟩, ⟨"Grace Lee", "Platform Team", 5, 0⟩]
      = PVal.num 15 ∧
    admin_average_efficiency
        [⟨"Grace Lee", "Platform Team", 10, 3⟩, ⟨"Grace Lee", "Platform Team", 5, 0⟩]
      = PVal.num 15 ∧
    PVal.num 15 ≠ PVal.num 30 ∧
    ∀ (dev : String) (rows : List Entry),
      engineer_average_efficiency dev rows
        = admin_average_efficiency (rows.filter (fun r => r.developer_name == dev)) := by
  refine ⟨?_, ?_, by decide, fun _ _ => rfl⟩
  · norm_num [engineer_average_efficiency, rowEfficiency, pdiv, pmul100, pmean, psum, padd,
      pdivNat, List.filter_cons, pval_num_bne_nan]
  · norm_num [admin_average_efficiency, rowEfficiency, pdiv, pmul100, pmean, psum, padd,
      pdivNat, List.filter_cons, pval_num_bne_nan]

/-- C5 counterexample. The claim states that rows with a blank/missing
`assistant_used` value are excluded from numerator and denominator.  The
source formula `(col == 'Yes').mean() * 100` keeps them in the denominator:
on `["Yes", ""]` it yields `50`, while the exclusion semantics the claim
(and spec) describe yields `100`. -/
theorem claim_C5_counterexample :
    copilot_usage_rate [Cell.str "Yes", Cell.str ""] = PVal.num 50 ∧
    spec_assistant_used_rate [Cell.str "Yes", Cell.str ""] = PVal.num 100 ∧
    PVal.num 50 ≠ PVal.num 100 := by
  refine ⟨?_, ?_, by decide⟩
  · norm_num [copilot_usage_rate, List.countP_cons, (by decide : ("" : String) ≠ "Yes")]
  · have h1 : (Cell.str "Yes" != Cell.str "" && Cell.str "Yes" != Cell.nan) = true := by decide
    have h2 : (Cell.str "" != Cell.str "" && Cell.str "" != Cell.nan) = false := by decide
    norm_num [spec_assistant_used_rate, List.filter_cons, h1, h2, List.countP_cons]

/-- C5 amended. A blank or missing `assistant_used` cell is counted as
not-Yes: it contributes to the denominator (total row count) and not to the
numerator, so it is not excluded. -/
theorem claim_C5_amended (cells : List Cell) (b : Cell)
    (hb : b = Cell.str "" ∨ b = Cell.nan) :
    copilot_usage_rate (b :: cells)
      = PVal.num (((cells.countP (fun c => c == Cell.str "Yes") : ℚ)
          / ((cells.length : ℚ) + 1)) * 100) := by
  have hbn : ¬ ((b == Cell.str "Yes") = true) := by
    rcases hb with h | h <;> simp [h]
  unfold copilot_usage_rate
  rw [if_neg (show ¬ ((b :: cells).isEmpty = true) by simp)]
  have hc : (b :: cells).countP (fun c => c == Cell.str "Yes")
      = cells.countP (fun c => c == Cell.str "Yes") :=
    List.countP_cons_of_neg _ _ hbn
  rw [hc, List.length_cons]
  push_cast
  ring_nf

/-- C5 witness: the amended statement applied to the concrete series
`["", "Yes"]`. -/
theorem claim_C5_witness :
    copilot_usage_rate [Cell.str "", Cell.str "Yes"]
      = PVal.num (((([Cell.str "Yes"] : List Cell).countP (fun c => c == Cell.str "Yes") : ℚ)
          / ((([Cell.str "Yes"] : List Cell).length : ℚ) + 1)) * 100) :=
  claim_C5_amended [Cell.str "Yes"] (Cell.str "") (Or.inl rfl)

/-- C9 counterexample. The partition-key derivation is not collision-free:
the distinct team names `"a b"` and `"a_b"` map to the same file name. -/
theorem claim_C9_counterexample :
    get_team_excel_file "a b" = get_team_excel_file "a_b" ∧ "a b" ≠ "a_b" :=
  ⟨rfl, by decide⟩

/-- C9 amended. The derivation is a pure function of the team name (it is a
function by construction), and it is collision-free on team names that
contain no underscore; names differing only by space versus underscore
collide. -/
theorem claim_C9_amended (s t : String)
    (hs : '_' ∉ s.data) (ht : '_' ∉ t.data)
    (h : get_team_excel_file s = get_team_excel_file t) : s = t := by
  have hd := congrArg String.data h
  unfold get_team_excel_file at hd
  rw [string_data_append, string_data_append, string_data_append, string_data_append,
    string_mk_data, string_mk_data, List.append_assoc, List.append_assoc] at hd
  have h1 := List.append_cancel_left hd
  have h2 := List.append_cancel_right h1
  exact String.ext (replaceSpace_inj s.data t.data hs ht h2)

/-- C9 witness: the amended statement applied at the underscore-free name
`"x"`. -/
theorem claim_C9_witness : ("x" : String) = "x" :=
  claim_C9_amended "x" "x" (by decide) (by decide) rfl

/-! ## Helper lemmas for the load pipeline and the aggregation claims -/

theorem getColD_eq (df : DFrame) (c : String) (v : List Cell)
    (h : getCol? df c = some v) : getColD df c = v := by
  unfold getColD
  rw [h]
  rfl

theorem dmLegacy_preserves (df df1 : DFrame) (h : dmLegacy df = some df1) (c : String)
    (hc1 : c ≠ "Week") (hc2 : c ≠ "Week_Start") (hc3 : c ≠ "Week_End") :
    getCol? df1 c = getCol? df c := by
  unfold dmLegacy at h
  by_cases hcond : (hasCol df "Week" && !hasCol df "Week_Start") = true
  · rw [if_pos hcond] at h
    cases had : allDates? (getColD df "Week") with
    | none => rw [had] at h; cases h
    | some ds =>
      rw [had] at h
      rw [← Option.some.inj h]
      rw [getCol?_dropCol_ne _ _ _ hc1, getCol?_setCol_ne _ _ _ _ hc3,
        getCol?_setCol_ne _ _ _ _ hc2]
  · rw [if_neg hcond] at h
    rw [← Option.some.inj h]

theorem dmLoad_content_preserves (df df1 : DFrame) (hdl : dmLegacy df = some df1)
    (c : String) (hmem : c ∈ DB_COLUMNS)
    (hc1 : c ≠ "Week") (hc2 : c ≠ "Week_Start") (hc3 : c ≠ "Week_End")
    (h : hasCol df c = true) :
    getColD (DataManager_load_excel_data (FileState.content df)) c = getColD df c := by
  show getColD
    (match dmLegacy df with
     | none => create_empty_dataframe
     | some dfx => selectCols (fillMissing dfx DB_COLUMNS) DB_COLUMNS) c = getColD df c
  rw [hdl]
  have g : getCol? df1 c = getCol? df c := dmLegacy_preserves df df1 hdl c hc1 hc2 hc3
  have hp : hasCol df1 c = true := by
    unfold hasCol
    rw [g]
    exact h
  rw [getColD_eq _ _ _ (getCol?_selectCols_mem _ _ _ hmem)]
  unfold getColD
  rw [getCol?_fillMissing_present _ _ _ hp, g]

theorem psum_cons (v : PVal) (vs : List PVal) : psum (v :: vs) = padd v (psum vs) := rfl

theorem psum_posInf (vs : List PVal) (hne : vs ≠ [])
    (h : ∀ v ∈ vs, v = PVal.posInf) : psum vs = PVal.posInf := by
  induction vs with
  | nil => exact absurd rfl hne
  | cons v vs ih =>
    rw [h v (List.mem_cons_self v vs), psum_cons]
    cases vs with
    | nil => rfl
    | cons w ws =>
      rw [ih (by simp) (fun x hx => h x (List.mem_cons_of_mem _ hx))]
      rfl

theorem list_sum_zero_of_nonneg (l : List ℚ) (h : ∀ x ∈ l, 0 ≤ x) (hs : l.sum = 0) :
    ∀ x ∈ l, x = 0 := by
  induction l with
  | nil => intro x hx; cases hx
  | cons a l ih =>
    rw [List.sum_cons] at hs
    have ha : 0 ≤ a := h a (List.mem_cons_self a l)
    have hl : 0 ≤ l.sum := List.sum_nonneg (fun x hx => h x (List.mem_cons_of_mem a hx))
    have ha0 : a = 0 := le_antisymm (by linarith) ha
    intro x hx
    rcases List.mem_cons.mp hx with h1 | h2
    · rw [h1, ha0]
    · exact ih (fun y hy => h y (List.mem_cons_of_mem a hy)) (by linarith) x h2

theorem pval_posInf_bne_nan : (PVal.posInf != PVal.nan) = true := rfl

theorem fillMissing_all_present (names : List String) (df : DFrame)
    (h : ∀ c ∈ names, hasCol df c = true) : fillMissing df names = df := by
  induction names with
  | nil => rfl
  | cons n rest ih =>
    rw [fillMissing_cons, if_pos (h n (List.mem_cons_self n rest))]
    exact ih (fun c hc => h c (List.mem_cons_of_mem n hc))

theorem canonical_load_eq (df : DFrame)
    (hweek : hasCol df "Week" = false)
    (hall : ∀ c ∈ DB_COLUMNS, hasCol df c = true)
    (hsel : selectCols df DB_COLUMNS = df) :
    DataManager_load_excel_data (FileState.content df)
      = S3DataManager_load_excel_data (FileState.content df) := by
  have hleg : dmLegacy df = some df := by
    unfold dmLegacy
    rw [if_neg (by simp [hweek])]
  have hfill : fillMissing df DB_COLUMNS = df := fillMissing_all_present _ _ hall
  have hs3 : s3Legacy df = df := by
    unfold s3Legacy
    rw [if_neg (by simp [hweek])]
  show (match dmLegacy df with
    | none => create_empty_dataframe
    | some dfx => selectCols (fillMissing dfx DB_COLUMNS) DB_COLUMNS)
    = fillMissing (s3Legacy df) DB_COLUMNS
  rw [hleg]
  show selectCols (fillMissing df DB_COLUMNS) DB_COLUMNS = fillMissing (s3Legacy df) DB_COLUMNS
  rw [hfill, hsel, hs3, hfill]

/-- C2 counterexample. The claim requires `week_end = W + 6 days` in both
backends; the S3 backend instead copies the legacy `Week` value verbatim
into `Week_End`, so on a single legacy row with `W = day 0` it yields
`day 0`, not `day 6`. -/
theorem claim_C2_counterexample :
    getCol? (S3DataManager_load_excel_data (FileState.content
        ⟨1, [("Week", [Cell.date 0])]⟩)) "Week_End" = some [Cell.date 0] ∧
    some [Cell.date 0] ≠ some [Cell.date 6] := by
  constructor
  · decide
  · decide

/-- C2 amended. For a legacy input with a `Week` column of dates and no
`Week_Start`, the local backend produces `week_start = W` and
`week_end = W + 6 days`; the S3 backend copies the `Week` cells verbatim
into both `Week_Start` and `Week_End` (so its `week_end` equals `W`). -/
theorem claim_C2_amended :
    (∀ (df : DFrame) (ws : List ℤ),
      getCol? df "Week" = some (ws.map Cell.date) →
      hasCol df "Week_Start" = false →
      getCol? (DataManager_load_excel_data (FileState.content df)) "Week_Start"
          = some (ws.map Cell.date) ∧
      getCol? (DataManager_load_excel_data (FileState.content df)) "Week_End"
          = some (ws.map (fun d => Cell.date (d + 6)))) ∧
    (∀ (df : DFrame) (cells : List Cell),
      getCol? df "Week" = some cells →
      hasCol df "Week_Start" = false →
      getCol? (S3DataManager_load_excel_data (FileState.content df)) "Week_Start" = some cells ∧
      getCol? (S3DataManager_load_excel_data (FileState.content df)) "Week_End" = some cells) := by
  constructor
  · intro df ws hweek hws
    have hwk : hasCol df "Week" = true := by
      unfold hasCol
      rw [hweek]
      rfl
    have hleg : dmLegacy df
        = some (dropCol
            (setCol (setCol df "Week_Start" (ws.map Cell.date)) "Week_End"
              (ws.map (fun d => Cell.date (d + 6))))
            "Week") := by
      unfold dmLegacy
      rw [if_pos (by rw [hwk, hws]; rfl)]
      rw [getColD_eq df "Week" _ hweek, allDates?_map_date]
    have hload : DataManager_load_excel_data (FileState.content df)
        = selectCols (fillMissing (dropCol
            (setCol (setCol df "Week_Start" (ws.map Cell.date)) "Week_End"
              (ws.map (fun d => Cell.date (d + 6)))) "Week") DB_COLUMNS) DB_COLUMNS := by
      show (match dmLegacy df with
        | none => create_empty_dataframe
        | some dfx => selectCols (fillMissing dfx DB_COLUMNS) DB_COLUMNS) = _
      rw [hleg]
    have hst : getCol? (dropCol
        (setCol (setCol df "Week_Start" (ws.map Cell.date)) "Week_End"
          (ws.map (fun d => Cell.date (d + 6)))) "Week") "Week_Start"
        = some (ws.map Cell.date) := by
      rw [getCol?_dropCol_ne _ _ _ (by decide), getCol?_setCol_ne _ _ _ _ (by decide)]
      exact getCol?_setCol_self _ _ _
    have hen : getCol? (dropCol
        (setCol (setCol df "Week_Start" (ws.map Cell.date)) "Week_End"
          (ws.map (fun d => Cell.date (d + 6)))) "Week") "Week_End"
        = some (ws.map (fun d => Cell.date (d + 6))) := by
      rw [getCol?_dropCol_ne _ _ _ (by decide)]
      exact getCol?_setCol_self _ _ _
    rw [hload]
    constructor
    · rw [getCol?_selectCols_mem _ _ _ (by decide)]
      rw [getColD_eq _ _ _ (by
        rw [getCol?_fillMissing_present _ _ _ (by unfold hasCol; rw [hst]; rfl)]
        exact hst)]
    · rw [getCol?_selectCols_mem _ _ _ (by decide)]
      rw [getColD_eq _ _ _ (by
        rw [getCol?_fillMissing_present _ _ _ (by unfold hasCol; rw [hen]; rfl)]
        exact hen)]
  · intro df cells hweek hws
    have hwk : hasCol df "Week" = true := by
      unfold hasCol
      rw [hweek]
      rfl
    have hs3 : s3Legacy df
        = setCol (setCol df "Week_Start" (getColD df "Week")) "Week_End" (getColD df "Week") := by
      unfold s3Legacy
      rw [if_pos (by rw [hwk, hws]; rfl)]
    have hg : getColD df "Week" = cells := getColD_eq df "Week" cells hweek
    show getCol? (fillMissing (s3Legacy df) DB_COLUMNS) "Week_Start" = some cells ∧
         getCol? (fillMissing (s3Legacy df) DB_COLUMNS) "Week_End" = some cells
    rw [hs3, hg]
    constructor
    · rw [getCol?_fillMissing_present _ _ _ (by
        rw [hasCol_setCol_ne _ _ _ _ (by decide)]
        exact hasCol_setCol_self _ _ _)]
      rw [getCol?_setCol_ne _ _ _ _ (by decide)]
      exact getCol?_setCol_self _ _ _
    · rw [getCol?_fillMissing_present _ _ _ (hasCol_setCol_self _ _ _)]
      exact getCol?_setCol_self _ _ _

/-- C2 witness: the amended statement at the one-row legacy frame with
`W = day 10`: the local backend yields `Week_Start = day 10`,
`Week_End = day 16`; the S3 backend yields `Week_End = day 10`. -/
theorem claim_C2_witness :
    getCol? (DataManager_load_excel_data (FileState.content
        ⟨1, [("Week", [Cell.date 10])]⟩)) "Week_Start" = some [Cell.date 10] ∧
    getCol? (DataManager_load_excel_data (FileState.content
        ⟨1, [("Week", [Cell.date 10])]⟩)) "Week_End" = some [Cell.date (10 + 6)] ∧
    getCol? (S3DataManager_load_excel_data (FileState.content
        ⟨1, [("Week", [Cell.date 10])]⟩)) "Week_End" = some [Cell.date 10] :=
  ⟨(claim_C2_amended.1 ⟨1, [("Week", [Cell.date 10])]⟩ [10] rfl rfl).1,
   (claim_C2_amended.1 ⟨1, [("Week", [Cell.date 10])]⟩ [10] rfl rfl).2,
   (claim_C2_amended.2 ⟨1, [("Week", [Cell.date 10])]⟩ [Cell.date 10] rfl rfl).2⟩

/-- C3 counterexample. On the same stored content (a single legacy `Week`
row), the local and the S3 backend return different frames: the local one
migrates to `Week_Start`/`Week_End = W + 6`, drops `Week` and projects onto
the canonical columns; the S3 one keeps `Week`, sets `Week_End = W` and
keeps the input column order. -/
theorem claim_C3_counterexample :
    DataManager_load_excel_data (FileState.content ⟨1, [("Week", [Cell.date 0])]⟩)
      ≠ S3DataManager_load_excel_data (FileState.content ⟨1, [("Week", [Cell.date 0])]⟩) := by
  decide

/-- C3 amended. The two backends agree on inputs already in canonical shape:
for any frame whose columns are exactly the canonical columns in canonical
order, both loads return the input unchanged, hence the same rows in the
same column order. -/
theorem claim_C3_amended (n : Nat) (v1 v2 v3 v4 v5 v6 v7 v8 v9 v10 v11 : List Cell) :
    DataManager_load_excel_data (FileState.content
      ⟨n, [("Week_Start", v1), ("Week_End", v2), ("Story_ID", v3), ("Developer_Name", v4),
           ("Team_Name", v5), ("Original_Estimate_Hours", v6), ("Efficiency_Gained_Hours", v7),
           ("Copilot_Used", v8), ("Category", v9), ("Areas_of_Efficiency", v10),
           ("Notes_Observations", v11)]⟩)
      = S3DataManager_load_excel_data (FileState.content
      ⟨n, [("Week_Start", v1), ("Week_End", v2), ("Story_ID", v3), ("Developer_Name", v4),
           ("Team_Name", v5), ("Original_Estimate_Hours", v6), ("Efficiency_Gained_Hours", v7),
           ("Copilot_Used", v8), ("Category", v9), ("Areas_of_Efficiency", v10),
           ("Notes_Observations", v11)]⟩) :=
  canonical_load_eq _ rfl (by intro c hc; fin_cases hc <;> rfl) rfl

/-- C4 counterexample. The normalizer does not enforce the invariant: a raw
row with `Copilot_Used = "No"` and `Efficiency_Gained_Hours = 5` passes
through `load_excel_data` unchanged, so the loaded data violates
"gained = 0 whenever assistant_used = No". -/
theorem claim_C4_counterexample :
    noImpliesZero (DataManager_load_excel_data (FileState.content
      ⟨1, [("Copilot_Used", [Cell.str "No"]), ("Efficiency_Gained_Hours", [Cell.num 5])]⟩))
      = false := by
  decide

/-- C4 amended. The invariant is established at entry creation — the entry
form stores `0` for the time saved whenever the answer is not `"Yes"` — and
`load_excel_data` passes the two fields through unchanged, so it preserves
the invariant when the input satisfies it; it does not itself establish it
on arbitrary input. -/
theorem claim_C4_amended :
    (∀ (copilot : String) (saved : ℚ),
      copilot ≠ "Yes" → form_efficiency_gained copilot saved = 0) ∧
    (∀ df : DFrame,
      hasCol df "Copilot_Used" = true →
      hasCol df "Efficiency_Gained_Hours" = true →
      noImpliesZero df = true →
      noImpliesZero (DataManager_load_excel_data (FileState.content df)) = true) := by
  constructor
  · intro c s hc
    unfold form_efficiency_gained
    rw [if_neg (by simp [hc])]
  · intro df h1 h2 h3
    cases hdl : dmLegacy df with
    | none =>
      have hload : DataManager_load_excel_data (FileState.content df)
          = create_empty_dataframe := by
        show (match dmLegacy df with
          | none => create_empty_dataframe
          | some dfx => selectCols (fillMissing dfx DB_COLUMNS) DB_COLUMNS) = _
        rw [hdl]
      rw [hload]
      decide
    | some df1 =>
      unfold noImpliesZero at h3 ⊢
      rw [dmLoad_content_preserves df df1 hdl "Copilot_Used"
          (by decide) (by decide) (by decide) (by decide) h1,
        dmLoad_content_preserves df df1 hdl "Efficiency_Gained_Hours"
          (by decide) (by decide) (by decide) (by decide) h2]
      exact h3

/-- C4 witness: the entry form zeroes the gained hours for a `"No"` answer,
and the normalizer keeps a conforming row conforming. -/
theorem claim_C4_witness :
    form_efficiency_gained "No" 7 = 0 ∧
    noImpliesZero (DataManager_load_excel_data (FileState.content
      ⟨1, [("Copilot_Used", [Cell.str "No"]), ("Efficiency_Gained_Hours", [Cell.num 0])]⟩))
      = true :=
  ⟨claim_C4_amended.1 "No" 7 (by decide),
   claim_C4_amended.2 ⟨1, [("Copilot_Used", [Cell.str "No"]),
     ("Efficiency_Gained_Hours", [Cell.num 0])]⟩ (by decide) (by decide) (by decide)⟩

/-- C8 counterexample. The S3 backend does not drop unknown columns: an
input with an extra column `Extra` keeps it in the output, and the output
column list is not the canonical one. -/
theorem claim_C8_counterexample :
    hasCol (S3DataManager_load_excel_data (FileState.content
      ⟨1, [("Extra", [Cell.str "x"])]⟩)) "Extra" = true ∧
    (S3DataManager_load_excel_data (FileState.content
      ⟨1, [("Extra", [Cell.str "x"])]⟩)).cols.map Prod.fst ≠ DB_COLUMNS := by
  constructor
  · decide
  · decide

/-- C8 amended. The local backend satisfies the claim: its output always has
exactly the canonical columns in canonical order, and a canonical column
absent from the input (with no legacy `Week` column triggering migration) is
synthesized as a column of empty strings, never a rejection.  The S3 backend
only guarantees that every canonical column is present in its output: extra
input columns survive and the input order is kept. -/
theorem claim_C8_amended :
    (∀ fs : FileState,
      (DataManager_load_excel_data fs).cols.map Prod.fst = DB_COLUMNS) ∧
    (∀ (df : DFrame) (c : String), c ∈ DB_COLUMNS → hasCol df c = false →
      hasCol df "Week" = false →
      getCol? (DataManager_load_excel_data (FileState.content df)) c
        = some (List.replicate df.nrows (Cell.str ""))) ∧
    (∀ (df : DFrame) (c : String), c ∈ DB_COLUMNS →
      hasCol (S3DataManager_load_excel_data (FileState.content df)) c = true) := by
  have hsel : ∀ dfx : DFrame, (selectCols dfx DB_COLUMNS).cols.map Prod.fst = DB_COLUMNS := by
    intro dfx
    unfold selectCols
    rw [List.map_map]
    rw [show (Prod.fst ∘ fun nm => (nm, getColD dfx nm)) = id from rfl]
    exact List.map_id _
  have he : create_empty_dataframe.cols.map Prod.fst = DB_COLUMNS := by
    unfold create_empty_dataframe
    rw [List.map_map]
    rw [show (Prod.fst ∘ fun nm => (nm, ([] : List Cell))) = id from rfl]
    exact List.map_id _
  refine ⟨?_, ?_, ?_⟩
  · intro fs
    cases fs with
    | missing => exact he
    | corrupt => exact he
    | content df =>
      cases hdl : dmLegacy df with
      | none =>
        show (match dmLegacy df with
          | none => create_empty_dataframe
          | some dfx => selectCols (fillMissing dfx DB_COLUMNS) DB_COLUMNS).cols.map Prod.fst
          = DB_COLUMNS
        rw [hdl]
        exact he
      | some df1 =>
        show (match dmLegacy df with
          | none => create_empty_dataframe
          | some dfx => selectCols (fillMissing dfx DB_COLUMNS) DB_COLUMNS).cols.map Prod.fst
          = DB_COLUMNS
        rw [hdl]
        exact hsel _
  · intro df c hcmem hcol hweek
    have hleg : dmLegacy df = some df := by
      unfold dmLegacy
      rw [if_neg (by simp [hweek])]
    have hload : DataManager_load_excel_data (FileState.content df)
        = selectCols (fillMissing df DB_COLUMNS) DB_COLUMNS := by
      show (match dmLegacy df with
        | none => create_empty_dataframe
        | some dfx => selectCols (fillMissing dfx DB_COLUMNS) DB_COLUMNS) = _
      rw [hleg]
    rw [hload, getCol?_selectCols_mem _ _ _ hcmem,
      getColD_eq _ _ _ (getCol?_fillMissing_absent DB_COLUMNS df c hcol hcmem)]
  · intro df c hcmem
    exact hasCol_fillMissing_of_mem DB_COLUMNS (s3Legacy df) c hcmem

/-- C8 witness: the amended statement at concrete frames — the missing-file
load has the canonical columns; a two-row frame lacking
`Notes_Observations` gets it synthesized with two empty strings; the S3
load of an empty frame contains `Category`. -/
theorem claim_C8_witness :
    (DataManager_load_excel_data FileState.missing).cols.map Prod.fst = DB_COLUMNS ∧
    getCol? (DataManager_load_excel_data (FileState.content
        ⟨2, [("Extra", [Cell.str "x", Cell.str "y"])]⟩)) "Notes_Observations"
      = some (List.replicate 2 (Cell.str "")) ∧
    hasCol (S3DataManager_load_excel_data (FileState.content ⟨1, []⟩)) "Category" = true :=
  ⟨claim_C8_amended.1 FileState.missing,
   claim_C8_amended.2.1 ⟨2, [("Extra", [Cell.str "x", Cell.str "y"])]⟩ "Notes_Observations"
     (by decide) (by decide) (by decide),
   claim_C8_amended.2.2 ⟨1, []⟩ "Category" (by decide)⟩

/-- C6 counterexample. A group whose total estimate hours are zero does not
always get `NaN`: a single entry with estimate `0` and gained `1` produces a
row ratio `1/0 = +inf`, and the mean (which only skips `NaN`) is `+inf`,
not `NaN`. -/
theorem claim_C6_counterexample :
    (([⟨"d", "t", 0, 1⟩] : List Entry).map Entry.original_estimate_hours).sum = 0 ∧
    admin_average_efficiency [⟨"d", "t", 0, 1⟩] = PVal.posInf ∧
    PVal.posInf ≠ PVal.nan := by
  refine ⟨by norm_num, ?_, by decide⟩
  norm_num [admin_average_efficiency, rowEfficiency, pdiv, pmul100, pmean, psum, padd,
    pdivNat, List.filter_cons, pval_posInf_bne_nan]

/-- C6 amended. For a group of entries with non-negative hours whose total
`original_estimate_hours` is zero (hence every estimate is zero), the
computed efficiency metric is `NaN` when every gained value is zero (or the
group is empty), `+inf` when some gained value is positive, and in no case a
finite number — in particular never `0`, and never an error (the embedded
computation is total). -/
theorem claim_C6_amended (entries : List Entry)
    (hsum : (entries.map Entry.original_estimate_hours).sum = 0)
    (hest : ∀ e ∈ entries, 0 ≤ e.original_estimate_hours)
    (hgain : ∀ e ∈ entries, 0 ≤ e.efficiency_gained_hours) :
    ((∀ e ∈ entries, e.efficiency_gained_hours = 0) →
        admin_average_efficiency entries = PVal.nan) ∧
    ((∃ e ∈ entries, 0 < e.efficiency_gained_hours) →
        admin_average_efficiency entries = PVal.posInf) ∧
    (∀ q : ℚ, admin_average_efficiency entries ≠ PVal.num q) := by
  have hz : ∀ e ∈ entries, e.original_estimate_hours = 0 := by
    intro e he
    refine list_sum_zero_of_nonneg _ ?_ hsum _ (List.mem_map.mpr ⟨e, he, rfl⟩)
    intro x hx
    obtain ⟨e2, he2, hfx⟩ := List.mem_map.mp hx
    rw [← hfx]
    exact hest e2 he2
  have hre : ∀ e ∈ entries,
      rowEfficiency e = if e.efficiency_gained_hours = 0 then PVal.nan else PVal.posInf := by
    intro e he
    unfold rowEfficiency pdiv
    rw [hz e he]
    by_cases hg : e.efficiency_gained_hours = 0
    · rw [if_pos rfl, if_pos hg, if_pos hg]
      rfl
    · rw [if_pos rfl, if_neg hg, if_neg hg,
        if_pos (lt_of_le_of_ne (hgain e he) (Ne.symm hg))]
      rfl
  have hcls : ∀ v ∈ entries.map rowEfficiency, v = PVal.nan ∨ v = PVal.posInf := by
    intro v hv
    obtain ⟨e, he, hfe⟩ := List.mem_map.mp hv
    rw [← hfe, hre e he]
    by_cases hg : e.efficiency_gained_hours = 0
    · rw [if_pos hg]
      left
      rfl
    · rw [if_neg hg]
      right
      rfl
  have hval : ∀ v ∈ (entries.map rowEfficiency).filter (fun v => v != PVal.nan),
      v = PVal.posInf := by
    intro v hv
    have hm := List.mem_filter.mp hv
    rcases hcls v hm.1 with hn | hp
    · rw [hn] at hm
      exact absurd hm.2 (by decide)
    · exact hp
  refine ⟨?_, ?_, ?_⟩
  · intro hall
    have hnil : (entries.map rowEfficiency).filter (fun v => v != PVal.nan) = [] := by
      rw [List.filter_eq_nil_iff]
      intro v hv
      obtain ⟨e, he, hfe⟩ := List.mem_map.mp hv
      rw [← hfe, hre e he, if_pos (hall e he)]
      decide
    unfold admin_average_efficiency pmean
    rw [hnil]
    rfl
  · intro hex
    have hnonempty : (entries.map rowEfficiency).filter (fun v => v != PVal.nan) ≠ [] := by
      obtain ⟨e, he, hg⟩ := hex
      have hpe : rowEfficiency e = PVal.posInf := by
        rw [hre e he, if_neg (ne_of_gt hg)]
      have hmem : PVal.posInf ∈ (entries.map rowEfficiency).filter (fun v => v != PVal.nan) :=
        List.mem_filter.mpr ⟨List.mem_map.mpr ⟨e, he, hpe⟩, by decide⟩
      intro hnil
      rw [hnil] at hmem
      cases hmem
    unfold admin_average_efficiency pmean
    rw [if_neg (by
      simp only [List.isEmpty_eq_true]
      exact hnonempty)]
    rw [psum_posInf _ hnonempty hval]
    rfl
  · intro q hq
    by_cases hnil : (entries.map rowEfficiency).filter (fun v => v != PVal.nan) = []
    · unfold admin_average_efficiency pmean at hq
      rw [hnil] at hq
      exact PVal.noConfusion hq
    · unfold admin_average_efficiency pmean at hq
      rw [if_neg (by
        simp only [List.isEmpty_eq_true]
        exact hnil)] at hq
      rw [psum_posInf _ hnil hval] at hq
      exact PVal.noConfusion hq

/-- C6 witness: the amended statement at a concrete group of two zero-
estimate entries, one with positive gain — the metric is `+inf`. -/
theorem claim_C6_witness :
    admin_average_efficiency [⟨"d", "t", 0, 0⟩, ⟨"d", "t", 0, 2⟩] = PVal.posInf := by
  refine (claim_C6_amended [⟨"d", "t", 0, 0⟩, ⟨"d", "t", 0, 2⟩]
    (by norm_num) ?_ ?_).2.1 ?_
  · intro e he
    rcases List.mem_cons.mp he with h1 | h2
    · rw [h1]
    · rw [List.mem_singleton.mp h2]
  · intro e he
    rcases List.mem_cons.mp he with h1 | h2
    · rw [h1]
    · rw [List.mem_singleton.mp h2]
      norm_num
  · exact ⟨⟨"d", "t", 0, 2⟩, by simp, by norm_num⟩
